import Mathlib

/-!
Verification of the rowt-console-sdk authenticated-session coordinator
(`src/RowtConsole.ts`) against its natural-language specification.

The development shallowly embeds the TypeScript source:
* `Store` models the two `localStorage` slots `access_token` / `refresh_token`;
  `truthy` models JavaScript truthiness of `localStorage.getItem` results
  (`null` and `""` are falsy).
* `applyRequestInterceptor` is the request interceptor (lines 55-61).
* `Machine` / `step` is a small-step semantics of the response interceptor
  (lines 64-107), the subscriber list (`subscribeTokenRefresh` /
  `onRefreshed` / `onRefreshFailed`, lines 110-125), `refreshToken`
  (lines 127-152), `clearTokens` and `manualRefreshToken`.  Requests sent
  through `this.client` — including the `POST /auth/refresh` issued by
  `refreshToken` itself, which the source also routes through the
  intercepted client — are state entries; network responses are events.
* `logout`, `getLinksByProjectId`, `getAnalyticsBreakdown`, … embed the
  corresponding pass-through API-surface methods.
-/

namespace RowtConsole

abbrev Token := String

/-- The two `localStorage` slots the source reads and writes
(`access_token`, `refresh_token`). -/
structure Store where
  access : Option Token
  refresh : Option Token
deriving Repr, DecidableEq

/-- JavaScript truthiness of a `localStorage.getItem` result: `null`
(modelled `none`) and the empty string are falsy. -/
def truthy : Option Token → Bool
  | none => false
  | some s => !(s == "")

/-- Model of `clearTokens` (lines 154-157): both slots removed. -/
def clearTokens (_st : Store) : Store := ⟨none, none⟩

/-- The per-request axios config fields the source touches:
`config.headers.Authorization` and the ad-hoc `config._retry` flag. -/
structure ReqConfig where
  authorization : Option String
  retried : Bool
deriving Repr, DecidableEq

/-- Request interceptor (lines 55-61): read `access_token`; if truthy,
set `Authorization: Bearer <token>`; otherwise leave the config alone. -/
def applyRequestInterceptor (st : Store) (cfg : ReqConfig) : ReqConfig :=
  match st.access with
  | some t => if t = "" then cfg else { cfg with authorization := some ("Bearer " ++ t) }
  | none => cfg

/-- Error values a call can settle with in the model. -/
inductive Err
  | status401
  | serverError
  | noRefreshToken
  | invalidTokenResponse
deriving Repr, DecidableEq

/-! ### `logout` (lines 166-183)

JavaScript `try`/`finally` semantics: a completion record, with the rule
that an abrupt completion (`return`/`throw`) of the `finally` block
overrides the completion of the `try` block. In the source the `finally` block
executes `clearTokens()` and then `return "Logout successful"`. -/

/-- A JavaScript completion: normal, thrown, or an explicit `return`. -/
inductive Completion (α : Type)
  | normal (v : α)
  | thrown (e : Err)
  | ret (v : α)
deriving Repr, DecidableEq

/-- Semantics of `try { t } finally { f }`: if the `finally` block completes normally
the `try` completion stands; an abrupt `finally` completion overrides it. -/
def jsTryFinally {α : Type} (tryC : Completion α) (finC : Completion α) : Completion α :=
  match finC with
  | .normal _ => tryC
  | .thrown e => .thrown e
  | .ret v => .ret v

/-- Model of `logout` (lines 166-183): the `try` block reads the stored tokens and
posts them to `/auth/logout` (outcome `remote`); the `finally` block runs
`clearTokens()` and `return "Logout successful"`. -/
def logout (st : Store) (remote : Except Err Unit) : Store × Completion String :=
  let tryC : Completion String :=
    match remote with
    | .ok _ => .normal ""
    | .error e => .thrown e
  let st' := clearTokens st
  (st', jsTryFinally tryC (.ret "Logout successful"))

/-! ### API-surface validation (pass-through methods)

Each method is embedded as: validation, then the network request it would
send (path together with the identifier it carries). A `.ok` value means
the network call is made; `.error` means the method threw before any
network call. -/

/-- Model of `getLinksByProjectId` (lines 230-244): `if (!projectId) throw`. -/
def getLinksByProjectId (projectId : String) (includeInteractions : Bool) :
    Except String (String × String × Bool) :=
  if projectId = "" then .error "Missing projectId"
  else .ok ("/link/byProjectId", projectId, includeInteractions)

/-- Model of `getProjectById` (lines 246-268): `if (!projectId) throw`.  The
options-merging of the body is not identifier-relevant and is elided. -/
def getProjectById (projectId : String) : Except String (String × String) :=
  if projectId = "" then .error "Missing projectId"
  else .ok ("/projects/getById", projectId)

/-- Model of `getAnalytics` (lines 270-316): `if (!projectId) throw`. -/
def getAnalytics (projectId : String) : Except String (String × String) :=
  if projectId = "" then .error "Missing projectId"
  else .ok ("/analytics", projectId)

/-- Model of `regenerateApiKey` (lines 391-402): `if (!projectId) throw`. -/
def regenerateApiKey (projectId : String) : Except String (String × String) :=
  if projectId = "" then .error "Missing projectId"
  else .ok ("/projects/generateApiKey", projectId)

/-- Model of `getUserUsage` (lines 404-407): no validation — the request is posted
with whatever `userId` the caller supplied. -/
def getUserUsage (userId : String) : Except String (String × String) :=
  .ok ("/users/usage", userId)

/-- Model of `getUserTier` (lines 409-412): no validation. -/
def getUserTier (userId : String) : Except String (String × String) :=
  .ok ("/users/tier", userId)

/-! ### `getAnalyticsBreakdown` (lines 318-360) -/

/-- Shape of `AnalyticsBreakdownRequest` (types.ts lines 224-233).  `Date` values
are epoch milliseconds; a `Date` object is always truthy, so only
presence matters for the `!request.startDate` checks — hence `Option`. -/
structure AnalyticsBreakdownRequest where
  projectId : String
  dimension : String
  startDate : Option Nat
  endDate : Option Nat
  timezone : Option String
  limit : Option Int
  offset : Option Int
deriving Repr, DecidableEq

/-- JavaScript `x || d` for an optional number: `undefined`, `0` (and only
those, for integral values) fall back to the default. -/
def jsOrInt (v : Option Int) (d : Int) : Int :=
  match v with
  | none => d
  | some n => if n = 0 then d else n

/-- JavaScript `x || d` for an optional string: `undefined` and `""` fall
back to the default. -/
def jsOrStr (v : Option String) (d : String) : String :=
  match v with
  | none => d
  | some s => if s = "" then d else s

/-- The payload `getAnalyticsBreakdown` posts to `/analytics/breakdown`. -/
structure BreakdownPayload where
  projectId : String
  dimension : String
  startDate : Nat
  endDate : Nat
  timezone : String
  limit : Int
  offset : Int
deriving Repr, DecidableEq

/-- Model of `getAnalyticsBreakdown` (lines 318-345): validate `projectId`,
`dimension`, `startDate`/`endDate`, then build the payload with
`limit: request.limit || 50`, `offset: request.offset || 0`,
`timezone: request.timezone || <environment timezone>` (the ambient
`Intl` timezone is passed in as `envTZ`). -/
def getAnalyticsBreakdown (envTZ : String) (r : AnalyticsBreakdownRequest) :
    Except String BreakdownPayload :=
  if r.projectId = "" then .error "Missing projectId"
  else if r.dimension = "" then .error "Missing dimension"
  else
    match r.startDate, r.endDate with
    | some s, some e =>
        .ok ⟨r.projectId, r.dimension, s, e, jsOrStr r.timezone envTZ,
             jsOrInt r.limit 50, jsOrInt r.offset 0⟩
    | _, _ => .error "Missing startDate or endDate"

/-! ### The session coordinator as a small-step machine

Requests sent through `this.client` are numbered; each carries its config
(`ReqConfig`), the continuation awaiting its promise (`ReqCont`), and a
status.  `refreshToken` invocations (the "chains", one per call of the
function, whether from the 401 interceptor or from `manualRefreshToken`)
are numbered too.  JavaScript is single-threaded: each network response
is processed atomically; promise rejections delivered to a *pending*
`refreshToken` await (a refresh `POST` that was itself intercepted) are
microtasks, modelled by the `sched` queue and the `deliverNext` event. -/

/-- Who is awaiting the promise of a request: an API-surface caller, or the
`await this.client.post("/auth/refresh", …)` inside `refreshToken`
invocation number `chain`. -/
inductive ReqCont
  | api
  | refreshPost (chain : Nat)
deriving Repr, DecidableEq

/-- Lifecycle of a request: in flight on the network; parked in the
subscriber list awaiting a refresh outcome; or settled. -/
inductive ReqStatus
  | inflight
  | pending
  | settledOk (payload : String)
  | settledErr (e : Err)
deriving Repr, DecidableEq

structure Req where
  cfg : ReqConfig
  cont : ReqCont
  status : ReqStatus
deriving Repr, DecidableEq

/-- Which code path invoked `refreshToken`: the 401 response interceptor
(lines 72-88) or `manualRefreshToken` (lines 460-468). -/
inductive ChainOrigin
  | auto
  | manual
deriving Repr, DecidableEq

inductive ChainStatus
  | running
  | doneSuccess (tok : Token)
  | doneFailure (e : Err)
deriving Repr, DecidableEq

structure Chain where
  origin : ChainOrigin
  status : ChainStatus
deriving Repr, DecidableEq

/-- The whole coordinator state: the token store, the `isRefreshing`
flag, the `refreshSubscribers` list (request numbers, registration
order), every request and `refreshToken` invocation, the microtask queue,
a log of subscriber notifications (in notification order, `.ok tok` for
`onSuccess`, `.error e` for `onError`), and counters of `refreshToken`
invocations and of `POST /auth/refresh` network exchanges. -/
structure Machine where
  store : Store
  isRefreshing : Bool
  subscribers : List Nat
  reqs : Nat → Option Req
  nextReq : Nat
  chains : Nat → Option Chain
  nextChain : Nat
  sched : List (Nat × Err)
  notifyLog : List (Nat × Except Err Token)
  refreshCalls : Nat
  refreshPosts : Nat

def updFn {α : Type} (f : Nat → Option α) (i : Nat) (v : Option α) : Nat → Option α :=
  fun j => if j = i then v else f j

def setReq (m : Machine) (i : Nat) (r : Req) : Machine :=
  { m with reqs := updFn m.reqs i (some r) }

def initM (st : Store) : Machine :=
  ⟨st, false, [], fun _ => none, 0, fun _ => none, 0, [], [], 0, 0⟩

/-- One iteration of the `forEach` in `onRefreshed` / `onRefreshFailed`
(lines 117-125), applied to subscriber (request) `i`.  The closure pair
registered for `i` is always invoked — that is the notification, logged
unconditionally.  `onSuccess` (lines 92-96) sets
`config.headers.Authorization = Bearer token` and re-sends the request
through the client (so the request interceptor applies again);
`onError` (lines 97-100) rejects the promise of the request: an API caller
observes the error, a parked refresh `POST` delivers the rejection to its
`refreshToken` await as a microtask. -/
def notifyStep (out : Except Err Token) (m : Machine) (i : Nat) : Machine :=
  match m.reqs i with
  | none => { m with notifyLog := m.notifyLog ++ [(i, out)] }
  | some r =>
    match out with
    | .ok tok =>
        let cfg := applyRequestInterceptor m.store
          { r.cfg with authorization := some ("Bearer " ++ tok) }
        { m with notifyLog := m.notifyLog ++ [(i, out)],
                 reqs := updFn m.reqs i (some { r with cfg := cfg, status := .inflight }) }
    | .error e =>
        match r.cont with
        | .api =>
            { m with notifyLog := m.notifyLog ++ [(i, out)],
                     reqs := updFn m.reqs i (some { r with status := .settledErr e }) }
        | .refreshPost c =>
            { m with notifyLog := m.notifyLog ++ [(i, out)],
                     reqs := updFn m.reqs i (some { r with status := .settledErr e }),
                     sched := m.sched ++ [(c, e)] }

/-- Model of `onRefreshed` / `onRefreshFailed` (lines 117-125):
notify every subscriber in registration order, then clear the list. -/
def notifyAll (out : Except Err Token) (m : Machine) : Machine :=
  let m1 := m.subscribers.foldl (notifyStep out) m
  { m1 with subscribers := [] }

/-- Settlement of `refreshToken` invocation `c` with outcome `out`
(token storage on success already happened inside `refreshToken`).
Interceptor-launched chain (lines 75-87): `.then` runs
`onRefreshed`, `.catch` runs `clearTokens(); onRefreshFailed(err)`, and
`.finally` resets `isRefreshing`.  `manualRefreshToken` (lines 460-468):
returns `true` on success; on failure its `catch` runs `clearTokens()`
and returns `false` — no subscriber interaction. -/
def chainSettle (m : Machine) (c : Nat) (out : Except Err Token) : Machine :=
  match m.chains c with
  | none => m
  | some ch =>
    match ch.status with
    | .running =>
      match ch.origin, out with
      | .auto, .ok tok =>
          let m1 := notifyAll (.ok tok) m
          { m1 with chains := updFn m1.chains c (some ⟨.auto, .doneSuccess tok⟩),
                    isRefreshing := false }
      | .auto, .error e =>
          let m1 := notifyAll (.error e) { m with store := clearTokens m.store }
          { m1 with chains := updFn m1.chains c (some ⟨.auto, .doneFailure e⟩),
                    isRefreshing := false }
      | .manual, .ok tok =>
          { m with chains := updFn m.chains c (some ⟨.manual, .doneSuccess tok⟩) }
      | .manual, .error e =>
          { m with store := clearTokens m.store,
                   chains := updFn m.chains c (some ⟨.manual, .doneFailure e⟩) }
    | _ => m

/-- Invoking `this.refreshToken()` (lines 127-152), run synchronously up
to its first `await`: read `refresh_token`; if absent/empty, throw
`"No refresh token available"` (the rejection reaches the handlers of
the invoker as a microtask); otherwise send `POST /auth/refresh` through the
intercepted client (explicit headers carry `Authorization: undefined`,
then the request interceptor applies). -/
def startRefreshChain (origin : ChainOrigin) (m : Machine) : Machine :=
  let c := m.nextChain
  let m1 := { m with chains := updFn m.chains c (some ⟨origin, .running⟩),
                     nextChain := c + 1,
                     refreshCalls := m.refreshCalls + 1 }
  if truthy m1.store.refresh then
    let cfg := applyRequestInterceptor m1.store ⟨none, false⟩
    { m1 with reqs := updFn m1.reqs m1.nextReq (some ⟨cfg, .refreshPost c, .inflight⟩),
              nextReq := m1.nextReq + 1,
              refreshPosts := m1.refreshPosts + 1 }
  else
    { m1 with sched := m1.sched ++ [(c, Err.noRefreshToken)] }

/-- The error path of the response interceptor when the 401 branch is not
taken (line 105, `return Promise.reject(error)`): the rejection reaches
whoever awaits the request. -/
def rejectReq (m : Machine) (i : Nat) (r : Req) (e : Err) : Machine :=
  let m1 := setReq m i { r with status := .settledErr e }
  match r.cont with
  | .api => m1
  | .refreshPost c => chainSettle m1 c (.error e)

/-- Events: an API-surface call is issued; a network response arrives for
request `i` (success with a payload, success of a refresh `POST` with a
token-pair body, a 401, or another error); `manualRefreshToken` is
invoked; or the next queued microtask runs. -/
inductive Ev
  | send
  | respOkApi (i : Nat) (payload : String)
  | respOkRefresh (i : Nat) (a rt : Option Token)
  | resp401 (i : Nat)
  | respErr (i : Nat)
  | manualStart
  | deliverNext
deriving Repr, DecidableEq

/-- The small-step transition function.  `none` means the event is not
enabled in this state (no such in-flight request, empty microtask
queue, …). -/
def step (e : Ev) (m : Machine) : Option Machine :=
  match e with
  | .send =>
      -- an API method posts through `this.client`; the request
      -- interceptor signs the fresh config
      let cfg := applyRequestInterceptor m.store ⟨none, false⟩
      some { m with reqs := updFn m.reqs m.nextReq (some ⟨cfg, .api, .inflight⟩),
                    nextReq := m.nextReq + 1 }
  | .respOkApi i payload =>
      match m.reqs i with
      | some r =>
        match r.cont, r.status with
        | .api, .inflight =>
            -- success interceptor (line 65) is the identity
            some (setReq m i { r with status := .settledOk payload })
        | _, _ => none
      | none => none
  | .respOkRefresh i a rt =>
      match m.reqs i with
      | some r =>
        match r.cont, r.status with
        | .refreshPost c, .inflight =>
            -- `refreshToken` resumes (lines 144-151): validate the body,
            -- store both tokens, return the access token
            let m1 := setReq m i { r with status := .settledOk "" }
            if truthy a && truthy rt then
              some (chainSettle { m1 with store := ⟨a, rt⟩ } c (.ok (a.getD "")))
            else
              some (chainSettle m1 c (.error .invalidTokenResponse))
        | _, _ => none
      | none => none
  | .resp401 i =>
      match m.reqs i with
      | some r =>
        if r.status = .inflight then
          if r.cfg.retried then
            -- `config._retry` already set: fall through to line 105
            some (rejectReq m i r .status401)
          else
            -- lines 68-102: set `config._retry`; if not refreshing,
            -- start `refreshToken`; register the request as a subscriber
            let m1 := setReq m i { r with cfg := { r.cfg with retried := true },
                                          status := .pending }
            let m2 := if m1.isRefreshing then m1
                      else startRefreshChain .auto { m1 with isRefreshing := true }
            some { m2 with subscribers := m2.subscribers ++ [i] }
        else none
      | none => none
  | .respErr i =>
      match m.reqs i with
      | some r =>
        if r.status = .inflight then some (rejectReq m i r .serverError) else none
      | none => none
  | .manualStart =>
      -- `manualRefreshToken` (lines 460-468) invokes `refreshToken`
      some (startRefreshChain .manual m)
  | .deliverNext =>
      match m.sched with
      | [] => none
      | (c, e) :: rest => some (chainSettle { m with sched := rest } c (.error e))

/-- Run a sequence of events; an event that is not enabled is a no-op. -/
def run (m : Machine) (evs : List Ev) : Machine :=
  evs.foldl (fun s e => (step e s).getD s) m

/-- The data of a request that subscription bookkeeping cares about:
its `_retry` flag and its continuation. -/
def reqKey (r : Req) : Bool × ReqCont := (r.cfg.retried, r.cont)

/-- All request numbers that ever entered the subscriber list: the ones
still registered plus the ones already notified. -/
def SubsLog (m : Machine) : List Nat :=
  m.subscribers ++ m.notifyLog.map Prod.fst

/-- Request `i` exists and carries `_retry = true`. -/
def retriedAt (m : Machine) (i : Nat) : Prop :=
  ∃ r, m.reqs i = some r ∧ r.cfg.retried = true

/-- The inductive invariant of reachable coordinator states: no request
number is duplicated among ever-subscribed requests; every
ever-subscribed request exists and has `_retry = true`; request and chain
numbers below the respective counters are the only allocated ones. -/
structure Inv (m : Machine) : Prop where
  nodup : (SubsLog m).Nodup
  mem_retried : ∀ i ∈ SubsLog m, retriedAt m i
  reqFresh : ∀ i, m.nextReq ≤ i → m.reqs i = none
  chFresh : ∀ c, m.nextChain ≤ c → m.chains c = none

/-- The deadlocked configuration (see the lemmas at `stuck_step`):
the flag is raised, call 0 is parked, and no interceptor-launched
refresh chain can ever settle — no in-flight exchange nor queued
microtask belongs to one. -/
structure Stuck (m : Machine) : Prop where
  refreshing : m.isRefreshing = true
  call0 : ∃ r, m.reqs 0 = some r ∧ r.cont = .api ∧ r.status = .pending
  noInflightPost : ∀ c, m.chains c = some ⟨.auto, .running⟩ →
      ∀ i r, m.reqs i = some r → r.cont = .refreshPost c → r.status ≠ .inflight
  noSched : ∀ c e, m.chains c = some ⟨.auto, .running⟩ → (c, e) ∉ m.sched

/-! ### Concrete scenarios

`storeRT` is a store holding the pair `{at1, rt1}`.  `deadTrace` is the
failing run for the single-flight claims: two API calls are sent, both
are rejected with 401 (the first starts the refresh exchange, request 2),
and then the refresh exchange itself is rejected with 401 — whereupon the
interceptor parks the refresh `POST` in the subscriber list of its own
refresh. -/

def storeRT : Store := ⟨some "at1", some "rt1"⟩

def deadTrace : List Ev := [.send, .send, .resp401 0, .resp401 1, .resp401 2]

def mDead : Machine := run (initM storeRT) deadTrace

/-- A refresh exchange rejected with a non-401 error. -/
def mRefreshFail : Machine := run (initM storeRT) [.send, .resp401 0, .respErr 1]

/-- A 401 with no refresh token in the store (the rejection thrown by
`refreshToken` is delivered as a microtask). -/
def mNoToken : Machine := run (initM ⟨some "at1", none⟩) [.send, .resp401 0, .deliverNext]

/-- One call, 401, successful refresh: the retried call is in flight with
the new bearer token and `config._retry` set. -/
def retryTrace : List Ev := [.send, .resp401 0, .respOkRefresh 1 (some "a2") (some "r2")]

def mRetry : Machine := run (initM storeRT) retryTrace

/-- One API call sent, still in flight. -/
def mOneSend : Machine := run (initM storeRT) [.send]

/-- A manual refresh whose exchange settles successfully. -/
def mManualOk : Machine := run (initM storeRT) [.manualStart, .respOkRefresh 0 (some "a2") (some "r2")]

/-- A manual refresh whose exchange is rejected with 401. -/
def mManualBug : Machine := run (initM storeRT) [.manualStart, .resp401 0]

/-- A breakdown request that passes validation and carries `limit: 0`,
`offset: 0`. -/
def breakdownReq0 : AnalyticsBreakdownRequest :=
  ⟨"p1", "country", some 1000, some 2000, none, some 0, some 0⟩

/-! ### Basic lemmas -/

theorem run_append (m : Machine) (l1 l2 : List Ev) :
    run m (l1 ++ l2) = run (run m l1) l2 := by
  simp [run, List.foldl_append]

theorem run_cons (m : Machine) (e : Ev) (l : List Ev) :
    run m (e :: l) = run ((step e m).getD m) l := by
  simp [run]

theorem applyRequestInterceptor_retried (st : Store) (cfg : ReqConfig) :
    (applyRequestInterceptor st cfg).retried = cfg.retried := by
  unfold applyRequestInterceptor
  cases st.access with
  | none => rfl
  | some t => by_cases h : t = "" <;> simp [h]

theorem retriedAt_of_keyEq {m m' : Machine} {j : Nat}
    (h : (m'.reqs j).map reqKey = (m.reqs j).map reqKey) :
    retriedAt m j → retriedAt m' j := by
  rintro ⟨r, hr, hret⟩
  rw [hr] at h
  cases hr' : m'.reqs j with
  | none => rw [hr'] at h; simp at h
  | some r' =>
      rw [hr'] at h
      simp only [Option.map] at h
      rw [Option.some.injEq] at h
      refine ⟨r', hr', ?_⟩
      have : r'.cfg.retried = r.cfg.retried := congrArg Prod.fst h
      rw [this, hret]

theorem reqs_none_of_keyEq {m m' : Machine} {j : Nat}
    (h : (m'.reqs j).map reqKey = (m.reqs j).map reqKey) :
    m.reqs j = none → m'.reqs j = none := by
  intro hn
  rw [hn] at h
  simpa using Option.map_eq_none.mp h

/-! ### Lemmas about `notifyStep`, `notifyAll`, `chainSettle` -/

theorem notifyStep_fields (out : Except Err Token) (m : Machine) (i : Nat) :
    (notifyStep out m i).notifyLog = m.notifyLog ++ [(i, out)] ∧
    (notifyStep out m i).subscribers = m.subscribers ∧
    (notifyStep out m i).nextReq = m.nextReq ∧
    (notifyStep out m i).nextChain = m.nextChain ∧
    (notifyStep out m i).chains = m.chains ∧
    (notifyStep out m i).store = m.store ∧
    (notifyStep out m i).isRefreshing = m.isRefreshing := by
  cases hri : m.reqs i with
  | none => simp [notifyStep, hri]
  | some r =>
      cases out with
      | ok tok => simp [notifyStep, hri]
      | error e => cases hc : r.cont <;> simp [notifyStep, hri, hc]

theorem notifyStep_notifyLog (out : Except Err Token) (m : Machine) (i : Nat) :
    (notifyStep out m i).notifyLog = m.notifyLog ++ [(i, out)] :=
  (notifyStep_fields out m i).1

theorem notifyStep_subscribers (out : Except Err Token) (m : Machine) (i : Nat) :
    (notifyStep out m i).subscribers = m.subscribers :=
  (notifyStep_fields out m i).2.1

theorem notifyStep_nextReq (out : Except Err Token) (m : Machine) (i : Nat) :
    (notifyStep out m i).nextReq = m.nextReq :=
  (notifyStep_fields out m i).2.2.1

theorem notifyStep_nextChain (out : Except Err Token) (m : Machine) (i : Nat) :
    (notifyStep out m i).nextChain = m.nextChain :=
  (notifyStep_fields out m i).2.2.2.1

theorem notifyStep_chains (out : Except Err Token) (m : Machine) (i : Nat) :
    (notifyStep out m i).chains = m.chains :=
  (notifyStep_fields out m i).2.2.2.2.1

theorem notifyStep_store (out : Except Err Token) (m : Machine) (i : Nat) :
    (notifyStep out m i).store = m.store :=
  (notifyStep_fields out m i).2.2.2.2.2.1

theorem notifyStep_reqKey (out : Except Err Token) (m : Machine) (i j : Nat) :
    ((notifyStep out m i).reqs j).map reqKey = (m.reqs j).map reqKey := by
  cases hri : m.reqs i with
  | none => simp [notifyStep, hri]
  | some r =>
      have hkey : ∀ (r' : Req), reqKey r' = reqKey r →
          ((updFn m.reqs i (some r')) j).map reqKey = (m.reqs j).map reqKey := by
        intro r' hk
        unfold updFn
        by_cases hji : j = i
        · subst hji; rw [hri]; simp [hk]
        · simp [hji]
      cases out with
      | ok tok =>
          simp only [notifyStep, hri]
          exact hkey _ (by simp [reqKey, applyRequestInterceptor_retried])
      | error e =>
          cases hc : r.cont with
          | api =>
              simp only [notifyStep, hri, hc]
              exact hkey _ (by simp [reqKey, hc])
          | refreshPost c =>
              simp only [notifyStep, hri, hc]
              exact hkey _ (by simp [reqKey, hc])

theorem foldl_notifyStep_notifyLog (out : Except Err Token) (l : List Nat) :
    ∀ m : Machine, (l.foldl (notifyStep out) m).notifyLog
      = m.notifyLog ++ l.map (fun i => (i, out)) := by
  induction l with
  | nil => intro m; simp
  | cons i t ih =>
      intro m
      simp only [List.foldl_cons, List.map_cons]
      rw [ih, notifyStep_notifyLog]
      simp

theorem foldl_notifyStep_subscribers (out : Except Err Token) (l : List Nat) :
    ∀ m : Machine, (l.foldl (notifyStep out) m).subscribers = m.subscribers := by
  induction l with
  | nil => intro m; rfl
  | cons i t ih => intro m; simp only [List.foldl_cons]; rw [ih, notifyStep_subscribers]

theorem foldl_notifyStep_nextReq (out : Except Err Token) (l : List Nat) :
    ∀ m : Machine, (l.foldl (notifyStep out) m).nextReq = m.nextReq := by
  induction l with
  | nil => intro m; rfl
  | cons i t ih => intro m; simp only [List.foldl_cons]; rw [ih, notifyStep_nextReq]

theorem foldl_notifyStep_nextChain (out : Except Err Token) (l : List Nat) :
    ∀ m : Machine, (l.foldl (notifyStep out) m).nextChain = m.nextChain := by
  induction l with
  | nil => intro m; rfl
  | cons i t ih => intro m; simp only [List.foldl_cons]; rw [ih, notifyStep_nextChain]

theorem foldl_notifyStep_chains (out : Except Err Token) (l : List Nat) :
    ∀ m : Machine, (l.foldl (notifyStep out) m).chains = m.chains := by
  induction l with
  | nil => intro m; rfl
  | cons i t ih => intro m; simp only [List.foldl_cons]; rw [ih, notifyStep_chains]

theorem foldl_notifyStep_reqKey (out : Except Err Token) (l : List Nat) :
    ∀ (m : Machine) (j : Nat),
      ((l.foldl (notifyStep out) m).reqs j).map reqKey = (m.reqs j).map reqKey := by
  induction l with
  | nil => intro m j; rfl
  | cons i t ih =>
      intro m j
      simp only [List.foldl_cons]
      rw [ih, notifyStep_reqKey]

theorem notifyAll_notifyLog (out : Except Err Token) (m : Machine) :
    (notifyAll out m).notifyLog = m.notifyLog ++ m.subscribers.map (fun i => (i, out)) := by
  simp [notifyAll, foldl_notifyStep_notifyLog]

theorem notifyAll_subscribers (out : Except Err Token) (m : Machine) :
    (notifyAll out m).subscribers = [] := rfl

theorem notifyAll_nextReq (out : Except Err Token) (m : Machine) :
    (notifyAll out m).nextReq = m.nextReq := by
  simp [notifyAll, foldl_notifyStep_nextReq]

theorem notifyAll_nextChain (out : Except Err Token) (m : Machine) :
    (notifyAll out m).nextChain = m.nextChain := by
  simp [notifyAll, foldl_notifyStep_nextChain]

theorem notifyAll_chains (out : Except Err Token) (m : Machine) :
    (notifyAll out m).chains = m.chains := by
  simp [notifyAll, foldl_notifyStep_chains]

theorem notifyAll_reqKey (out : Except Err Token) (m : Machine) (j : Nat) :
    ((notifyAll out m).reqs j).map reqKey = (m.reqs j).map reqKey := by
  simp only [notifyAll]
  exact foldl_notifyStep_reqKey out m.subscribers m j

theorem notifyAll_subslog_perm (out : Except Err Token) (m : Machine) :
    (SubsLog (notifyAll out m)).Perm (SubsLog m) := by
  unfold SubsLog
  rw [notifyAll_subscribers, notifyAll_notifyLog]
  simp only [List.nil_append, List.map_append, List.map_map]
  have hfun : (Prod.fst ∘ fun i : Nat => (i, out)) = id := rfl
  rw [hfun, List.map_id]
  exact List.perm_append_comm

theorem chainSettle_nextReq (m : Machine) (c : Nat) (out : Except Err Token) :
    (chainSettle m c out).nextReq = m.nextReq := by
  cases hc : m.chains c with
  | none => simp [chainSettle, hc]
  | some ch =>
      obtain ⟨og, stt⟩ := ch
      cases stt with
      | running => cases og <;> cases out <;> simp [chainSettle, hc, notifyAll_nextReq]
      | doneSuccess tok => simp [chainSettle, hc]
      | doneFailure e => simp [chainSettle, hc]

theorem chainSettle_nextChain (m : Machine) (c : Nat) (out : Except Err Token) :
    (chainSettle m c out).nextChain = m.nextChain := by
  cases hc : m.chains c with
  | none => simp [chainSettle, hc]
  | some ch =>
      obtain ⟨og, stt⟩ := ch
      cases stt with
      | running => cases og <;> cases out <;> simp [chainSettle, hc, notifyAll_nextChain]
      | doneSuccess tok => simp [chainSettle, hc]
      | doneFailure e => simp [chainSettle, hc]

theorem chainSettle_reqKey (m : Machine) (c : Nat) (out : Except Err Token) (j : Nat) :
    ((chainSettle m c out).reqs j).map reqKey = (m.reqs j).map reqKey := by
  cases hc : m.chains c with
  | none => simp [chainSettle, hc]
  | some ch =>
      obtain ⟨og, stt⟩ := ch
      cases stt with
      | running =>
          cases og with
          | auto =>
              cases out with
              | ok tok =>
                  simp only [chainSettle, hc]
                  exact notifyAll_reqKey (.ok tok) m j
              | error e =>
                  simp only [chainSettle, hc]
                  exact notifyAll_reqKey (.error e) { m with store := clearTokens m.store } j
          | manual => cases out <;> simp [chainSettle, hc]
      | doneSuccess tok => simp [chainSettle, hc]
      | doneFailure e => simp [chainSettle, hc]

theorem chainSettle_subslog_perm (m : Machine) (c : Nat) (out : Except Err Token) :
    (SubsLog (chainSettle m c out)).Perm (SubsLog m) := by
  cases hc : m.chains c with
  | none => simp only [chainSettle, hc]; exact List.Perm.refl _
  | some ch =>
      obtain ⟨og, stt⟩ := ch
      cases stt with
      | running =>
          cases og with
          | auto =>
              cases out with
              | ok tok =>
                  simp only [chainSettle, hc]
                  exact notifyAll_subslog_perm (.ok tok) m
              | error e =>
                  simp only [chainSettle, hc]
                  exact notifyAll_subslog_perm (.error e) { m with store := clearTokens m.store }
          | manual =>
              cases out <;> (simp only [chainSettle, hc]; exact List.Perm.refl _)
      | doneSuccess tok => simp only [chainSettle, hc]; exact List.Perm.refl _
      | doneFailure e => simp only [chainSettle, hc]; exact List.Perm.refl _

theorem chainSettle_chains_none (m : Machine) (c : Nat) (out : Except Err Token)
    (j : Nat) (h : m.chains j = none) : (chainSettle m c out).chains j = none := by
  cases hc : m.chains c with
  | none => simp only [chainSettle, hc]; exact h
  | some ch =>
      have hne : j ≠ c := by
        intro heq; subst heq; rw [h] at hc; exact Option.noConfusion hc
      obtain ⟨og, stt⟩ := ch
      cases stt with
      | running =>
          cases og <;> cases out <;>
            simp [chainSettle, hc, updFn, hne, notifyAll_chains, h]
      | doneSuccess tok => simp only [chainSettle, hc]; exact h
      | doneFailure e => simp only [chainSettle, hc]; exact h

theorem setReq_reqKey {m : Machine} {i : Nat} {r r' : Req}
    (hri : m.reqs i = some r) (hk : reqKey r' = reqKey r) (j : Nat) :
    ((setReq m i r').reqs j).map reqKey = (m.reqs j).map reqKey := by
  unfold setReq updFn
  by_cases hji : j = i
  · subst hji; simp [hri, hk]
  · simp [hji]

/-- Transfer of the invariant along a step that permutes the
ever-subscribed list and preserves every request key, the request
counter, allocated-chain emptiness and the chain counter. -/
theorem inv_of_keyEq {m m' : Machine}
    (hperm : (SubsLog m').Perm (SubsLog m))
    (hkey : ∀ j, (m'.reqs j).map reqKey = (m.reqs j).map reqKey)
    (hnr : m'.nextReq = m.nextReq)
    (hch : ∀ c, m.chains c = none → m'.chains c = none)
    (hnc : m'.nextChain = m.nextChain)
    (inv : Inv m) : Inv m' := by
  refine ⟨hperm.symm.nodup inv.nodup, ?_, ?_, ?_⟩
  · intro i hi
    exact retriedAt_of_keyEq (hkey i) (inv.mem_retried i (hperm.mem_iff.mp hi))
  · intro i hi
    rw [hnr] at hi
    exact reqs_none_of_keyEq (hkey i) (inv.reqFresh i hi)
  · intro c hc
    rw [hnc] at hc
    exact hch c (inv.chFresh c hc)

theorem startRefreshChain_subscribers (o : ChainOrigin) (m : Machine) :
    (startRefreshChain o m).subscribers = m.subscribers := by
  cases htr : truthy m.store.refresh <;> simp [startRefreshChain, htr]

theorem startRefreshChain_notifyLog (o : ChainOrigin) (m : Machine) :
    (startRefreshChain o m).notifyLog = m.notifyLog := by
  cases htr : truthy m.store.refresh <;> simp [startRefreshChain, htr]

theorem startRefreshChain_isRefreshing (o : ChainOrigin) (m : Machine) :
    (startRefreshChain o m).isRefreshing = m.isRefreshing := by
  cases htr : truthy m.store.refresh <;> simp [startRefreshChain, htr]

theorem startRefreshChain_nextChain (o : ChainOrigin) (m : Machine) :
    (startRefreshChain o m).nextChain = m.nextChain + 1 := by
  cases htr : truthy m.store.refresh <;> simp [startRefreshChain, htr]

theorem startRefreshChain_reqs_lt (o : ChainOrigin) (m : Machine) (j : Nat)
    (h : j < m.nextReq) : (startRefreshChain o m).reqs j = m.reqs j := by
  have hne : j ≠ m.nextReq := Nat.ne_of_lt h
  cases htr : truthy m.store.refresh <;> simp [startRefreshChain, htr, updFn, hne]

theorem startRefreshChain_reqs_none (o : ChainOrigin) (m : Machine)
    (hfr : ∀ k, m.nextReq ≤ k → m.reqs k = none) (j : Nat)
    (hj : (startRefreshChain o m).nextReq ≤ j) : (startRefreshChain o m).reqs j = none := by
  cases htr : truthy m.store.refresh with
  | false =>
      simp only [startRefreshChain, htr] at hj ⊢
      simp only [Bool.false_eq_true, if_false] at hj ⊢
      exact hfr j hj
  | true =>
      simp only [startRefreshChain, htr, if_true] at hj ⊢
      have hne : j ≠ m.nextReq := by omega
      simp only [updFn, hne, if_false]
      exact hfr j (by omega)

theorem startRefreshChain_chains_ne (o : ChainOrigin) (m : Machine) (c : Nat)
    (h : c ≠ m.nextChain) : (startRefreshChain o m).chains c = m.chains c := by
  cases htr : truthy m.store.refresh <;> simp [startRefreshChain, htr, updFn, h]

theorem startRefreshChain_nextReq_ge (o : ChainOrigin) (m : Machine) :
    m.nextReq ≤ (startRefreshChain o m).nextReq := by
  cases htr : truthy m.store.refresh <;> simp [startRefreshChain, htr]

theorem inv_rejectReq {m : Machine} {i : Nat} {r : Req} (e : Err)
    (hri : m.reqs i = some r) (inv : Inv m) : Inv (rejectReq m i r e) := by
  obtain ⟨rcfg, rcont, rstt⟩ := r
  cases rcont with
  | api =>
      simp only [rejectReq]
      refine inv_of_keyEq ?_
        (fun j => @setReq_reqKey m i ⟨rcfg, .api, rstt⟩ ⟨rcfg, .api, .settledErr e⟩ hri rfl j)
        rfl (fun c hc => hc) rfl inv
      exact List.Perm.refl _
  | refreshPost c =>
      simp only [rejectReq]
      refine inv_of_keyEq ?_
        (fun j => (chainSettle_reqKey _ c (.error e) j).trans
          (@setReq_reqKey m i ⟨rcfg, .refreshPost c, rstt⟩ ⟨rcfg, .refreshPost c, .settledErr e⟩
            hri rfl j))
        (chainSettle_nextReq _ c (.error e))
        (fun c2 hc2 => chainSettle_chains_none _ c (.error e) c2 hc2)
        (chainSettle_nextChain _ c (.error e)) inv
      exact chainSettle_subslog_perm _ c (.error e)

/-- Preservation of the invariant across the subscription step: a state
`m2` that agrees with `m` on the ever-subscribed list, carries
`_retry = true` for the freshly-flagged request `i` and for every old
member, and is fresh above its counters, stays invariant when `i` is
appended to the subscriber list.  The request `i` had `_retry = false` in
`m`, which makes it distinct from every previous member. -/
theorem inv_subscribe {m m2 : Machine} {i : Nat} {r : Req}
    (inv : Inv m)
    (hri : m.reqs i = some r) (hret : r.cfg.retried = false)
    (h2subs : m2.subscribers = m.subscribers) (h2log : m2.notifyLog = m.notifyLog)
    (h2i : retriedAt m2 i)
    (h2old : ∀ j, j ∈ SubsLog m → retriedAt m2 j)
    (h2fresh : ∀ j, m2.nextReq ≤ j → m2.reqs j = none)
    (h2ch : ∀ c, m2.nextChain ≤ c → m2.chains c = none) :
    Inv { m2 with subscribers := m2.subscribers ++ [i] } := by
  have hnotmem : i ∉ SubsLog m := by
    intro hmem
    obtain ⟨r2, hr2, hret2⟩ := inv.mem_retried i hmem
    rw [hri] at hr2
    injection hr2 with hr2
    subst hr2
    rw [hret] at hret2
    exact Bool.noConfusion hret2
  have hSL : SubsLog { m2 with subscribers := m2.subscribers ++ [i] }
      = m.subscribers ++ i :: m.notifyLog.map Prod.fst := by
    show (m2.subscribers ++ [i]) ++ m2.notifyLog.map Prod.fst = _
    rw [h2subs, h2log, List.append_assoc]
    rfl
  refine ⟨?_, ?_, ?_, ?_⟩
  · rw [hSL]
    have hcons : (i :: (m.subscribers ++ m.notifyLog.map Prod.fst)).Nodup := by
      rw [List.nodup_cons]
      exact ⟨hnotmem, inv.nodup⟩
    exact List.perm_middle.symm.nodup hcons
  · intro j hj
    rw [hSL] at hj
    rcases List.mem_append.mp hj with hj1 | hj2
    · exact h2old j (List.mem_append.mpr (Or.inl hj1))
    · rcases List.mem_cons.mp hj2 with rfl | hj3
      · exact h2i
      · exact h2old j (List.mem_append.mpr (Or.inr hj3))
  · intro j hj
    exact h2fresh j hj
  · intro c hc
    exact h2ch c hc

/-- Preservation of the invariant when the 401 handler starts a refresh
chain from an intermediate state `MA` (the state after flagging request
`i` and raising `isRefreshing`) and then subscribes `i`. -/
theorem inv_subscribe_start (MA : Machine) (rN : Req) {m : Machine} {i : Nat} {r : Req}
    (inv : Inv m) (hri : m.reqs i = some r) (hret : r.cfg.retried = false)
    (hN : rN.cfg.retried = true)
    (hMAsubs : MA.subscribers = m.subscribers) (hMAlog : MA.notifyLog = m.notifyLog)
    (hMAreqs : MA.reqs = updFn m.reqs i (some rN))
    (hMAnextReq : MA.nextReq = m.nextReq)
    (hMAchains : MA.chains = m.chains)
    (hMAnextChain : MA.nextChain = m.nextChain) :
    Inv { startRefreshChain .auto MA with
          subscribers := (startRefreshChain .auto MA).subscribers ++ [i] } := by
  have hlt : i < m.nextReq := by
    by_contra hge
    rw [inv.reqFresh i (by omega)] at hri
    exact Option.noConfusion hri
  have hlt2 : i < MA.nextReq := by rw [hMAnextReq]; exact hlt
  refine inv_subscribe inv hri hret
    ((startRefreshChain_subscribers _ _).trans hMAsubs)
    ((startRefreshChain_notifyLog _ _).trans hMAlog) ?_ ?_ ?_ ?_
  · refine ⟨rN, ?_, hN⟩
    rw [startRefreshChain_reqs_lt _ _ i hlt2, hMAreqs]
    simp [updFn]
  · intro j hj
    obtain ⟨r2, hr2, hret2⟩ := inv.mem_retried j hj
    have hjlt : j < m.nextReq := by
      by_contra hge
      rw [inv.reqFresh j (by omega)] at hr2
      exact Option.noConfusion hr2
    have hjlt2 : j < MA.nextReq := by rw [hMAnextReq]; exact hjlt
    by_cases hji : j = i
    · subst hji
      refine ⟨rN, ?_, hN⟩
      rw [startRefreshChain_reqs_lt _ _ j hjlt2, hMAreqs]
      simp [updFn]
    · refine ⟨r2, ?_, hret2⟩
      rw [startRefreshChain_reqs_lt _ _ j hjlt2, hMAreqs]
      simp [updFn, hji, hr2]
  · apply startRefreshChain_reqs_none
    intro k hk
    rw [hMAreqs]
    have hk2 : m.nextReq ≤ k := by rw [hMAnextReq] at hk; exact hk
    have hne : k ≠ i := by omega
    simp only [updFn, hne, if_false]
    exact inv.reqFresh k hk2
  · intro c hc
    rw [startRefreshChain_nextChain, hMAnextChain] at hc
    have hne : c ≠ MA.nextChain := by rw [hMAnextChain]; omega
    rw [startRefreshChain_chains_ne _ _ c hne, hMAchains]
    exact inv.chFresh c (by omega)

/-- The 401 branch for a not-yet-retried request (lines 68-102) preserves
the invariant: flag the request, possibly start a refresh, subscribe. -/
theorem inv_resp401_subscribe {m : Machine} {i : Nat} {rauth : Option String} {rcont : ReqCont}
    (inv : Inv m) (heq : m.reqs i = some ⟨⟨rauth, false⟩, rcont, .inflight⟩) :
    Inv { (if (setReq m i ⟨⟨rauth, true⟩, rcont, .pending⟩).isRefreshing = true
           then setReq m i ⟨⟨rauth, true⟩, rcont, .pending⟩
           else startRefreshChain .auto
                  { setReq m i ⟨⟨rauth, true⟩, rcont, .pending⟩ with isRefreshing := true })
          with subscribers :=
            (if (setReq m i ⟨⟨rauth, true⟩, rcont, .pending⟩).isRefreshing = true
             then setReq m i ⟨⟨rauth, true⟩, rcont, .pending⟩
             else startRefreshChain .auto
                    { setReq m i ⟨⟨rauth, true⟩, rcont, .pending⟩ with isRefreshing := true
                    }).subscribers ++ [i] } := by
  have hlt : i < m.nextReq := by
    by_contra hge
    rw [inv.reqFresh i (by omega)] at heq
    exact Option.noConfusion heq
  by_cases hir : (setReq m i ⟨⟨rauth, true⟩, rcont, .pending⟩).isRefreshing = true
  · simp only [if_pos hir]
    refine inv_subscribe inv heq rfl rfl rfl ?_ ?_ ?_ ?_
    · exact ⟨⟨⟨rauth, true⟩, rcont, .pending⟩, by simp [setReq, updFn], rfl⟩
    · intro j hj
      by_cases hji : j = i
      · subst hji
        exact ⟨⟨⟨rauth, true⟩, rcont, .pending⟩, by simp [setReq, updFn], rfl⟩
      · obtain ⟨r2, hr2, hret2⟩ := inv.mem_retried j hj
        exact ⟨r2, by simp [setReq, updFn, hji, hr2], hret2⟩
    · intro j hj
      have hj2 : m.nextReq ≤ j := hj
      have hne : j ≠ i := by omega
      show updFn m.reqs i _ j = none
      simp only [updFn, hne, if_false]
      exact inv.reqFresh j hj2
    · exact inv.chFresh
  · simp only [if_neg hir]
    exact inv_subscribe_start
      { setReq m i ⟨⟨rauth, true⟩, rcont, .pending⟩ with isRefreshing := true }
      ⟨⟨rauth, true⟩, rcont, .pending⟩ inv heq rfl rfl rfl rfl rfl rfl rfl rfl

/-- Every enabled transition of the coordinator preserves the invariant. -/
theorem inv_step {e : Ev} {m m2 : Machine} (h : step e m = some m2) (inv : Inv m) :
    Inv m2 := by
  cases e with
  | send =>
      simp only [step] at h
      injection h with h
      subst h
      refine ⟨inv.nodup, ?_, ?_, inv.chFresh⟩
      · intro j hj
        obtain ⟨r, hr, hret⟩ := inv.mem_retried j hj
        have hne : j ≠ m.nextReq := by
          intro heq
          rw [heq, inv.reqFresh m.nextReq (le_refl _)] at hr
          exact Option.noConfusion hr
        exact ⟨r, by simp [updFn, hne, hr], hret⟩
      · intro j hj
        have hj2 : m.nextReq + 1 ≤ j := hj
        have hne : j ≠ m.nextReq := by omega
        show updFn m.reqs m.nextReq _ j = none
        simp only [updFn, hne, if_false]
        exact inv.reqFresh j (by omega)
  | respOkApi i payload =>
      simp only [step] at h
      cases heq : m.reqs i with
      | none => rw [heq] at h; exact Option.noConfusion h
      | some r =>
          rw [heq] at h
          obtain ⟨rcfg, rcont, rstt⟩ := r
          cases rcont with
          | api =>
              cases rstt with
              | inflight =>
                  injection h with h
                  subst h
                  refine inv_of_keyEq ?_
                    (fun j => @setReq_reqKey m i ⟨rcfg, .api, .inflight⟩
                      ⟨rcfg, .api, .settledOk payload⟩ heq rfl j)
                    rfl (fun c hc => hc) rfl inv
                  exact List.Perm.refl _
              | pending => exact Option.noConfusion h
              | settledOk p => exact Option.noConfusion h
              | settledErr e2 => exact Option.noConfusion h
          | refreshPost c => cases rstt <;> exact Option.noConfusion h
  | respOkRefresh i a rt =>
      simp only [step] at h
      split at h
      next x r heq =>
        split at h
        next xc xs c hcont hstt =>
          split at h
          next htr =>
            injection h with h
            subst h
            refine inv_of_keyEq ?_
              (fun j => (chainSettle_reqKey _ c _ j).trans
                (@setReq_reqKey m i r ⟨r.cfg, r.cont, .settledOk ""⟩ heq rfl j))
              (chainSettle_nextReq _ c _)
              (fun c2 hc2 => chainSettle_chains_none _ c _ c2 hc2)
              (chainSettle_nextChain _ c _) inv
            exact chainSettle_subslog_perm _ c _
          next htr =>
            injection h with h
            subst h
            refine inv_of_keyEq ?_
              (fun j => (chainSettle_reqKey _ c _ j).trans
                (@setReq_reqKey m i r ⟨r.cfg, r.cont, .settledOk ""⟩ heq rfl j))
              (chainSettle_nextReq _ c _)
              (fun c2 hc2 => chainSettle_chains_none _ c _ c2 hc2)
              (chainSettle_nextChain _ c _) inv
            exact chainSettle_subslog_perm _ c _
        next xc xs hno => exact Option.noConfusion h
      next x heq => exact Option.noConfusion h
  | resp401 i =>
      simp only [step] at h
      cases heq : m.reqs i with
      | none => rw [heq] at h; exact Option.noConfusion h
      | some r =>
          rw [heq] at h
          obtain ⟨⟨rauth, rret⟩, rcont, rstt⟩ := r
          cases rstt with
          | inflight =>
              cases rret with
              | true =>
                  injection h with h
                  subst h
                  exact inv_rejectReq _ heq inv
              | false =>
                  injection h with h
                  subst h
                  exact inv_resp401_subscribe inv heq
          | pending => exact Option.noConfusion h
          | settledOk p => exact Option.noConfusion h
          | settledErr e2 => exact Option.noConfusion h
  | respErr i =>
      simp only [step] at h
      split at h
      next x r heq =>
        split at h
        next hstt =>
          injection h with h
          subst h
          exact inv_rejectReq _ heq inv
        next hstt => exact Option.noConfusion h
      next x heq => exact Option.noConfusion h
  | manualStart =>
      simp only [step] at h
      injection h with h
      subst h
      have hsl : SubsLog (startRefreshChain .manual m) = SubsLog m := by
        unfold SubsLog
        rw [startRefreshChain_subscribers, startRefreshChain_notifyLog]
      refine ⟨?_, ?_, ?_, ?_⟩
      · rw [hsl]; exact inv.nodup
      · intro j hj
        rw [hsl] at hj
        obtain ⟨r2, hr2, hret2⟩ := inv.mem_retried j hj
        have hjlt : j < m.nextReq := by
          by_contra hge
          rw [inv.reqFresh j (by omega)] at hr2
          exact Option.noConfusion hr2
        refine ⟨r2, ?_, hret2⟩
        rw [startRefreshChain_reqs_lt _ _ j hjlt]
        exact hr2
      · exact startRefreshChain_reqs_none _ _ inv.reqFresh
      · intro c hc
        rw [startRefreshChain_nextChain] at hc
        have hne : c ≠ m.nextChain := by omega
        rw [startRefreshChain_chains_ne _ _ c hne]
        exact inv.chFresh c (by omega)
  | deliverNext =>
      simp only [step] at h
      cases hsc : m.sched with
      | nil => rw [hsc] at h; exact Option.noConfusion h
      | cons p rest =>
          rw [hsc] at h
          obtain ⟨c, e2⟩ := p
          injection h with h
          subst h
          refine inv_of_keyEq ?_ ?_ ?_ ?_ ?_ inv
          · exact chainSettle_subslog_perm _ c (.error e2)
          · intro j
            exact chainSettle_reqKey _ c (.error e2) j
          · exact chainSettle_nextReq _ c (.error e2)
          · intro c2 hc2
            exact chainSettle_chains_none _ c (.error e2) c2 hc2
          · exact chainSettle_nextChain _ c (.error e2)

theorem inv_initM (st : Store) : Inv (initM st) := by
  refine ⟨?_, ?_, ?_, ?_⟩
  · simp [SubsLog, initM]
  · intro i hi
    simp [SubsLog, initM] at hi
  · intro i _
    rfl
  · intro c _
    rfl

theorem inv_run (st : Store) (evs : List Ev) : Inv (run (initM st) evs) := by
  suffices h : ∀ m : Machine, Inv m → Inv (run m evs) from h _ (inv_initM st)
  induction evs with
  | nil => intro m hm; exact hm
  | cons e t ih =>
      intro m hm
      rw [run_cons]
      apply ih
      cases hs : step e m with
      | none => simp only [hs, Option.getD_none]; exact hm
      | some m2 => simp only [hs, Option.getD_some]; exact inv_step hs hm

/-- Settlement of a chain either leaves the notification log alone or
appends one entry per registered subscriber, in registration order, with
one uniform outcome, and empties the subscriber list. -/
theorem chainSettle_log_delta_of (m mB : Machine) (c : Nat) (out : Except Err Token)
    (hl : mB.notifyLog = m.notifyLog) (hs : mB.subscribers = m.subscribers) :
    (chainSettle mB c out).notifyLog = m.notifyLog ∨
    ∃ out2, (chainSettle mB c out).notifyLog
        = m.notifyLog ++ m.subscribers.map (fun i => (i, out2))
      ∧ (chainSettle mB c out).subscribers = [] := by
  cases hc : mB.chains c with
  | none => left; simp only [chainSettle, hc]; exact hl
  | some ch =>
      obtain ⟨og, stt⟩ := ch
      cases stt with
      | running =>
          cases og with
          | auto =>
              cases out with
              | ok tok =>
                  right
                  refine ⟨.ok tok, ?_, ?_⟩
                  · simp only [chainSettle, hc]
                    show (notifyAll (.ok tok) mB).notifyLog = _
                    rw [notifyAll_notifyLog, hl, hs]
                  · simp only [chainSettle, hc]
                    show (notifyAll (.ok tok) mB).subscribers = _
                    rw [notifyAll_subscribers]
              | error e =>
                  right
                  refine ⟨.error e, ?_, ?_⟩
                  · simp only [chainSettle, hc]
                    show (notifyAll (.error e) { mB with store := clearTokens mB.store }).notifyLog = _
                    rw [notifyAll_notifyLog]
                    show mB.notifyLog ++ mB.subscribers.map _ = _
                    rw [hl, hs]
                  · simp only [chainSettle, hc]
                    show (notifyAll (.error e) { mB with store := clearTokens mB.store }).subscribers = _
                    rw [notifyAll_subscribers]
          | manual =>
              left
              cases out <;> (simp only [chainSettle, hc]; exact hl)
      | doneSuccess tok => left; simp only [chainSettle, hc]; exact hl
      | doneFailure e => left; simp only [chainSettle, hc]; exact hl

/-- A single transition either leaves the notification log alone, or —
when it settles the in-flight refresh — appends exactly one entry per
registered subscriber, in registration order, with one uniform outcome,
and empties the subscriber list. -/
theorem step_log_delta (e : Ev) (m : Machine) :
    ((step e m).getD m).notifyLog = m.notifyLog ∨
    ∃ out, ((step e m).getD m).notifyLog
        = m.notifyLog ++ m.subscribers.map (fun i => (i, out))
      ∧ ((step e m).getD m).subscribers = [] := by
  cases e with
  | send => left; rfl
  | respOkApi i payload =>
      left
      cases heq : m.reqs i with
      | none => simp [step, heq]
      | some r =>
          obtain ⟨rcfg, rcont, rstt⟩ := r
          cases rcont <;> cases rstt <;> simp [step, heq, setReq]
  | respOkRefresh i a rt =>
      cases heq : m.reqs i with
      | none => left; simp [step, heq]
      | some r =>
          obtain ⟨rcfg, rcont, rstt⟩ := r
          cases rcont with
          | api => left; cases rstt <;> simp [step, heq]
          | refreshPost c =>
              cases rstt with
              | inflight =>
                  by_cases htr : (truthy a && truthy rt) = true
                  · simp only [step, heq, if_pos htr, Option.getD_some]
                    exact chainSettle_log_delta_of m _ c _ rfl rfl
                  · simp only [step, heq, if_neg htr, Option.getD_some]
                    exact chainSettle_log_delta_of m _ c _ rfl rfl
              | pending => left; simp [step, heq]
              | settledOk p => left; simp [step, heq]
              | settledErr e2 => left; simp [step, heq]
  | resp401 i =>
      cases heq : m.reqs i with
      | none => left; simp [step, heq]
      | some r =>
          obtain ⟨⟨rauth, rret⟩, rcont, rstt⟩ := r
          cases rstt with
          | inflight =>
              cases rret with
              | true =>
                  cases rcont with
                  | api => left; simp [step, heq, rejectReq, setReq]
                  | refreshPost c =>
                      simp only [step, heq, rejectReq, Option.getD_some]
                      exact chainSettle_log_delta_of m _ c _ rfl rfl
              | false =>
                  left
                  simp only [step, heq, Option.getD_some, if_true,
                    Bool.false_eq_true, if_false]
                  by_cases hir : (setReq m i
                      ⟨⟨rauth, true⟩, rcont, .pending⟩).isRefreshing = true
                  · simp only [if_pos hir]
                    simp [setReq]
                  · simp only [if_neg hir]
                    exact startRefreshChain_notifyLog _ _
          | pending => left; simp [step, heq]
          | settledOk p => left; simp [step, heq]
          | settledErr e2 => left; simp [step, heq]
  | respErr i =>
      cases heq : m.reqs i with
      | none => left; simp [step, heq]
      | some r =>
          obtain ⟨rcfg, rcont, rstt⟩ := r
          cases rstt with
          | inflight =>
              cases rcont with
              | api => left; simp [step, heq, rejectReq, setReq]
              | refreshPost c =>
                  simp only [step, heq, rejectReq, Option.getD_some]
                  exact chainSettle_log_delta_of m _ c _ rfl rfl
          | pending => left; simp [step, heq]
          | settledOk p => left; simp [step, heq]
          | settledErr e2 => left; simp [step, heq]
  | manualStart =>
      left
      show (startRefreshChain .manual m).notifyLog = m.notifyLog
      exact startRefreshChain_notifyLog _ _
  | deliverNext =>
      cases hsc : m.sched with
      | nil => left; simp [step, hsc]
      | cons p rest =>
          obtain ⟨c, e2⟩ := p
          simp only [step, hsc, Option.getD_some]
          exact chainSettle_log_delta_of m _ c _ rfl rfl

/-- When the chain being settled is not an in-flight interceptor-launched
refresh, settlement touches neither the flag, the requests, the
subscriber list nor the microtask queue. -/
theorem chainSettle_nonauto_fields (m : Machine) (c : Nat) (out : Except Err Token)
    (hna : ∀ og, m.chains c = some ⟨og, .running⟩ → og = .manual) :
    (chainSettle m c out).isRefreshing = m.isRefreshing ∧
    (chainSettle m c out).reqs = m.reqs ∧
    (chainSettle m c out).subscribers = m.subscribers ∧
    (chainSettle m c out).sched = m.sched := by
  cases hc : m.chains c with
  | none => simp [chainSettle, hc]
  | some ch =>
      obtain ⟨og, stt⟩ := ch
      cases stt with
      | running =>
          cases og with
          | auto => exact absurd (hna .auto hc) (by decide)
          | manual => cases out <;> simp [chainSettle, hc]
      | doneSuccess tok => simp [chainSettle, hc]
      | doneFailure e => simp [chainSettle, hc]

/-- Settling a non-auto chain only ever moves a chain out of the
`running` state; any chain running afterwards was running before. -/
theorem chainSettle_nonauto_chains (m : Machine) (c : Nat) (out : Except Err Token)
    (hna : ∀ og, m.chains c = some ⟨og, .running⟩ → og = .manual) (j : Nat) (ch2 : Chain)
    (h : (chainSettle m c out).chains j = some ch2) :
    m.chains j = some ch2 ∨ ch2.status ≠ .running := by
  cases hc : m.chains c with
  | none => left; simpa [chainSettle, hc] using h
  | some ch =>
      obtain ⟨og, stt⟩ := ch
      cases stt with
      | running =>
          cases og with
          | auto => exact absurd (hna .auto hc) (by decide)
          | manual =>
              cases out with
              | ok tok =>
                  simp only [chainSettle, hc] at h
                  by_cases hjc : j = c
                  · subst hjc
                    right
                    simp only [updFn, if_pos rfl] at h
                    injection h with h
                    subst h
                    simp
                  · left
                    simpa [updFn, hjc] using h
              | error e =>
                  simp only [chainSettle, hc] at h
                  by_cases hjc : j = c
                  · subst hjc
                    right
                    simp only [updFn, if_pos rfl] at h
                    injection h with h
                    subst h
                    simp
                  · left
                    simpa [updFn, hjc] using h
      | doneSuccess tok => left; simpa [chainSettle, hc] using h
      | doneFailure e => left; simpa [chainSettle, hc] using h

/-! ### The deadlocked configuration

After the interceptor-started refresh `POST` is itself rejected with 401,
the `POST` joins the subscriber list of the very refresh it belongs to:
`isRefreshing` stays `true` forever, no interceptor-launched chain can
ever settle, and every parked call stays parked.  `Stuck` captures the
configuration; it is preserved by every transition. -/

theorem stuck_ne_zero {m : Machine} (stk : Stuck m) {i : Nat} {r : Req}
    (heq : m.reqs i = some r) (hstt : r.status = .inflight) : i ≠ 0 := by
  intro h0
  subst h0
  obtain ⟨r0, h0r, _, h0s⟩ := stk.call0
  rw [heq] at h0r
  injection h0r with h0r
  subst h0r
  rw [hstt] at h0s
  exact ReqStatus.noConfusion h0s

/-- Replacing the entry of a non-zero request with a non-in-flight one
keeps the machine stuck. -/
theorem stuck_setReq {m : Machine} (stk : Stuck m) (i : Nat) (rNew : Req)
    (hne0 : i ≠ 0)
    (hN : ∀ c2, rNew.cont = .refreshPost c2 → rNew.status ≠ .inflight) :
    Stuck (setReq m i rNew) := by
  refine ⟨stk.refreshing, ?_, ?_, ?_⟩
  · obtain ⟨r0, h0, hc0, hs0⟩ := stk.call0
    refine ⟨r0, ?_, hc0, hs0⟩
    show updFn m.reqs i (some rNew) 0 = some r0
    simp only [updFn]
    rw [if_neg (Ne.symm hne0)]
    exact h0
  · intro c2 hc2 j r2 hrj hcont2
    have hrj2 : updFn m.reqs i (some rNew) j = some r2 := hrj
    simp only [updFn] at hrj2
    by_cases hji : j = i
    · rw [if_pos hji] at hrj2
      injection hrj2 with hrj2
      subst hrj2
      exact hN c2 hcont2
    · rw [if_neg hji] at hrj2
      exact stk.noInflightPost c2 hc2 j r2 hrj2 hcont2
  · intro c2 e2 hc2 hmem
    exact stk.noSched c2 e2 hc2 hmem

/-- Settling a chain that is not an interceptor-launched in-flight
refresh, from a state that replaced one non-zero request with a
non-in-flight one, keeps the machine stuck. -/
theorem stuck_settle (mB : Machine) (c : Nat) (out : Except Err Token) (i : Nat) (rNew : Req)
    {m : Machine} (stk : Stuck m)
    (hna : ∀ og, m.chains c = some ⟨og, .running⟩ → og = .manual)
    (hne0 : i ≠ 0)
    (hNs : rNew.status ≠ .inflight)
    (hBreqs : mB.reqs = updFn m.reqs i (some rNew))
    (hBchains : mB.chains = m.chains)
    (hBsched : mB.sched = m.sched)
    (hBir : mB.isRefreshing = m.isRefreshing) :
    Stuck (chainSettle mB c out) := by
  have hnaB : ∀ og, mB.chains c = some ⟨og, .running⟩ → og = .manual := by
    intro og hcog
    rw [hBchains] at hcog
    exact hna og hcog
  obtain ⟨hIR, hRQ, hSB, hSC⟩ := chainSettle_nonauto_fields mB c out hnaB
  refine ⟨?_, ?_, ?_, ?_⟩
  · rw [hIR, hBir]
    exact stk.refreshing
  · obtain ⟨r0, h0, hc0, hs0⟩ := stk.call0
    refine ⟨r0, ?_, hc0, hs0⟩
    rw [congrFun hRQ 0, congrFun hBreqs 0]
    simp only [updFn]
    rw [if_neg (Ne.symm hne0)]
    exact h0
  · intro c2 hc2 j r2 hrj hcont2
    rcases chainSettle_nonauto_chains mB c out hnaB c2 _ hc2 with hcM | hns
    · rw [hBchains] at hcM
      rw [congrFun hRQ j, congrFun hBreqs j] at hrj
      simp only [updFn] at hrj
      by_cases hji : j = i
      · rw [if_pos hji] at hrj
        injection hrj with hrj
        subst hrj
        exact hNs
      · rw [if_neg hji] at hrj
        exact stk.noInflightPost c2 hcM j r2 hrj hcont2
    · exact absurd rfl hns
  · intro c2 e2 hc2 hmem
    rcases chainSettle_nonauto_chains mB c out hnaB c2 _ hc2 with hcM | hns
    · rw [hBchains] at hcM
      rw [hSC, hBsched] at hmem
      exact stk.noSched c2 e2 hcM hmem
    · exact absurd rfl hns

/-- Settling a chain that is not an interceptor-launched in-flight
refresh, from a state with the same requests and a sub-queue of the
microtask queue, keeps the machine stuck. -/
theorem stuck_settle_id (mB : Machine) (c : Nat) (out : Except Err Token)
    {m : Machine} (stk : Stuck m)
    (hna : ∀ og, m.chains c = some ⟨og, .running⟩ → og = .manual)
    (hBreqs : mB.reqs = m.reqs)
    (hBchains : mB.chains = m.chains)
    (hBsched : ∀ p, p ∈ mB.sched → p ∈ m.sched)
    (hBir : mB.isRefreshing = m.isRefreshing) :
    Stuck (chainSettle mB c out) := by
  have hnaB : ∀ og, mB.chains c = some ⟨og, .running⟩ → og = .manual := by
    intro og hcog
    rw [hBchains] at hcog
    exact hna og hcog
  obtain ⟨hIR, hRQ, hSB, hSC⟩ := chainSettle_nonauto_fields mB c out hnaB
  refine ⟨?_, ?_, ?_, ?_⟩
  · rw [hIR, hBir]
    exact stk.refreshing
  · obtain ⟨r0, h0, hc0, hs0⟩ := stk.call0
    refine ⟨r0, ?_, hc0, hs0⟩
    rw [congrFun hRQ 0, congrFun hBreqs 0]
    exact h0
  · intro c2 hc2 j r2 hrj hcont2
    rcases chainSettle_nonauto_chains mB c out hnaB c2 _ hc2 with hcM | hns
    · rw [hBchains] at hcM
      rw [congrFun hRQ j, congrFun hBreqs j] at hrj
      exact stk.noInflightPost c2 hcM j r2 hrj hcont2
    · exact absurd rfl hns
  · intro c2 e2 hc2 hmem
    rcases chainSettle_nonauto_chains mB c out hnaB c2 _ hc2 with hcM | hns
    · rw [hBchains] at hcM
      rw [hSC] at hmem
      exact stk.noSched c2 e2 hcM (hBsched _ hmem)
    · exact absurd rfl hns

/-- Once the coordinator is stuck, every transition leaves it stuck: the
flag stays raised, call 0 stays parked, and no interceptor-launched
refresh can ever settle. -/
theorem stuck_step {e : Ev} {m m2 : Machine} (h : step e m = some m2)
    (inv : Inv m) (stk : Stuck m) : Stuck m2 := by
  cases e with
  | send =>
      simp only [step] at h
      injection h with h
      subst h
      obtain ⟨r0, h0, hc0, hs0⟩ := stk.call0
      have h0lt : 0 < m.nextReq := by
        by_contra hge
        rw [inv.reqFresh 0 (by omega)] at h0
        exact Option.noConfusion h0
      have hne : (0 : Nat) ≠ m.nextReq := by omega
      refine ⟨stk.refreshing, ⟨r0, ?_, hc0, hs0⟩, ?_, ?_⟩
      · show updFn m.reqs m.nextReq _ 0 = some r0
        simp only [updFn]
        rw [if_neg hne]
        exact h0
      · intro c2 hc2 j r2 hrj hcont2
        have hrj2 : updFn m.reqs m.nextReq
            (some ⟨applyRequestInterceptor m.store ⟨none, false⟩, .api, .inflight⟩) j
            = some r2 := hrj
        simp only [updFn] at hrj2
        by_cases hji : j = m.nextReq
        · rw [if_pos hji] at hrj2
          injection hrj2 with hrj2
          subst hrj2
          exact absurd hcont2 (by simp)
        · rw [if_neg hji] at hrj2
          exact stk.noInflightPost c2 hc2 j r2 hrj2 hcont2
      · intro c2 e2 hc2 hmem
        exact stk.noSched c2 e2 hc2 hmem
  | respOkApi i payload =>
      simp only [step] at h
      cases heq : m.reqs i with
      | none => rw [heq] at h; exact Option.noConfusion h
      | some r =>
          rw [heq] at h
          obtain ⟨rcfg, rcont, rstt⟩ := r
          cases rcont with
          | api =>
              cases rstt with
              | inflight =>
                  injection h with h
                  subst h
                  exact stuck_setReq stk i ⟨rcfg, .api, .settledOk payload⟩
                    (stuck_ne_zero stk heq rfl) (fun c2 hco => absurd hco (by simp))
              | pending => exact Option.noConfusion h
              | settledOk p => exact Option.noConfusion h
              | settledErr e2 => exact Option.noConfusion h
          | refreshPost c => cases rstt <;> exact Option.noConfusion h
  | respOkRefresh i a rt =>
      simp only [step] at h
      split at h
      next x r heq =>
        split at h
        next xc xs c hcont hstt =>
          have hne0 : i ≠ 0 := stuck_ne_zero stk heq hstt
          have hna : ∀ og, m.chains c = some ⟨og, .running⟩ → og = .manual := by
            intro og hcog
            cases og with
            | manual => rfl
            | auto => exact absurd hstt (stk.noInflightPost c hcog i r heq hcont)
          split at h
          next htr =>
            injection h with h
            subst h
            exact stuck_settle _ c _ i ⟨r.cfg, r.cont, .settledOk ""⟩ stk hna hne0
              (by simp) rfl rfl rfl rfl
          next htr =>
            injection h with h
            subst h
            exact stuck_settle _ c _ i ⟨r.cfg, r.cont, .settledOk ""⟩ stk hna hne0
              (by simp) rfl rfl rfl rfl
        next xc xs hno => exact Option.noConfusion h
      next x heq => exact Option.noConfusion h
  | resp401 i =>
      simp only [step] at h
      cases heq : m.reqs i with
      | none => rw [heq] at h; exact Option.noConfusion h
      | some r =>
          rw [heq] at h
          obtain ⟨⟨rauth, rret⟩, rcont, rstt⟩ := r
          cases rstt with
          | inflight =>
              have hne0 : i ≠ 0 := stuck_ne_zero stk heq rfl
              cases rret with
              | true =>
                  injection h with h
                  subst h
                  cases rcont with
                  | api =>
                      simp only [rejectReq]
                      exact stuck_setReq stk i ⟨⟨rauth, true⟩, .api, .settledErr .status401⟩
                        hne0 (fun c2 hco => absurd hco (by simp))
                  | refreshPost c =>
                      simp only [rejectReq]
                      have hna : ∀ og, m.chains c = some ⟨og, .running⟩ → og = .manual := by
                        intro og hcog
                        cases og with
                        | manual => rfl
                        | auto => exact absurd rfl (stk.noInflightPost c hcog i _ heq rfl)
                      exact stuck_settle _ c _ i
                        ⟨⟨rauth, true⟩, .refreshPost c, .settledErr .status401⟩
                        stk hna hne0 (by simp) rfl rfl rfl rfl
              | false =>
                  injection h with h
                  subst h
                  have hir : (setReq m i
                      ⟨⟨rauth, true⟩, rcont, .pending⟩).isRefreshing = true := stk.refreshing
                  simp only [if_pos hir]
                  refine ⟨stk.refreshing, ?_, ?_, ?_⟩
                  · obtain ⟨r0, h0, hc0, hs0⟩ := stk.call0
                    refine ⟨r0, ?_, hc0, hs0⟩
                    show updFn m.reqs i _ 0 = some r0
                    simp only [updFn]
                    rw [if_neg (Ne.symm hne0)]
                    exact h0
                  · intro c2 hc2 j r2 hrj hcont2
                    have hrj2 : updFn m.reqs i
                        (some ⟨⟨rauth, true⟩, rcont, .pending⟩) j = some r2 := hrj
                    simp only [updFn] at hrj2
                    by_cases hji : j = i
                    · rw [if_pos hji] at hrj2
                      injection hrj2 with hrj2
                      subst hrj2
                      simp
                    · rw [if_neg hji] at hrj2
                      exact stk.noInflightPost c2 hc2 j r2 hrj2 hcont2
                  · intro c2 e2 hc2 hmem
                    exact stk.noSched c2 e2 hc2 hmem
          | pending => exact Option.noConfusion h
          | settledOk p => exact Option.noConfusion h
          | settledErr e2 => exact Option.noConfusion h
  | respErr i =>
      simp only [step] at h
      split at h
      next x r heq =>
        split at h
        next hstt =>
          injection h with h
          subst h
          have hne0 : i ≠ 0 := stuck_ne_zero stk heq hstt
          cases hcont : r.cont with
          | api =>
              simp only [rejectReq, hcont]
              exact stuck_setReq stk i ⟨r.cfg, .api, .settledErr .serverError⟩ hne0
                (fun c2 hco => absurd hco (by simp))
          | refreshPost c =>
              simp only [rejectReq, hcont]
              have hna : ∀ og, m.chains c = some ⟨og, .running⟩ → og = .manual := by
                intro og hcog
                cases og with
                | manual => rfl
                | auto => exact absurd hstt (stk.noInflightPost c hcog i r heq hcont)
              exact stuck_settle _ c _ i ⟨r.cfg, .refreshPost c, .settledErr .serverError⟩
                stk hna hne0 (by simp) rfl rfl rfl rfl
        next hstt => exact Option.noConfusion h
      next x heq => exact Option.noConfusion h
  | manualStart =>
      simp only [step] at h
      injection h with h
      subst h
      obtain ⟨r0, h0, hc0, hs0⟩ := stk.call0
      have h0lt : 0 < m.nextReq := by
        by_contra hge
        rw [inv.reqFresh 0 (by omega)] at h0
        exact Option.noConfusion h0
      have hchainsNew : (startRefreshChain .manual m).chains m.nextChain
          = some ⟨.manual, .running⟩ := by
        cases htr : truthy m.store.refresh <;> simp [startRefreshChain, htr, updFn]
      have hcM : ∀ c2, (startRefreshChain .manual m).chains c2 = some ⟨.auto, .running⟩ →
          m.chains c2 = some ⟨.auto, .running⟩ ∧ c2 < m.nextChain := by
        intro c2 hc2
        have hc2ne : c2 ≠ m.nextChain := by
          intro hceq
          subst hceq
          rw [hchainsNew] at hc2
          injection hc2 with hc2
          exact ChainOrigin.noConfusion (congrArg Chain.origin hc2)
        rw [startRefreshChain_chains_ne _ _ c2 hc2ne] at hc2
        refine ⟨hc2, ?_⟩
        by_contra hge
        rw [inv.chFresh c2 (by omega)] at hc2
        exact Option.noConfusion hc2
      refine ⟨?_, ⟨r0, ?_, hc0, hs0⟩, ?_, ?_⟩
      · rw [startRefreshChain_isRefreshing]
        exact stk.refreshing
      · rw [startRefreshChain_reqs_lt _ _ 0 h0lt]
        exact h0
      · intro c2 hc2 j r2 hrj hcont2
        obtain ⟨hcm, hclt⟩ := hcM c2 hc2
        by_cases hjlt : j < m.nextReq
        · rw [startRefreshChain_reqs_lt _ _ j hjlt] at hrj
          exact stk.noInflightPost c2 hcm j r2 hrj hcont2
        · cases htr : truthy m.store.refresh with
          | false =>
              have hrr : (startRefreshChain .manual m).reqs j = m.reqs j := by
                simp [startRefreshChain, htr]
              rw [hrr, inv.reqFresh j (by omega)] at hrj
              exact Option.noConfusion hrj
          | true =>
              have hrr : (startRefreshChain .manual m).reqs
                  = updFn m.reqs m.nextReq
                      (some ⟨applyRequestInterceptor m.store ⟨none, false⟩,
                        .refreshPost m.nextChain, .inflight⟩) := by
                simp [startRefreshChain, htr]
              rw [hrr] at hrj
              simp only [updFn] at hrj
              by_cases hji : j = m.nextReq
              · rw [if_pos hji] at hrj
                injection hrj with hrj
                subst hrj
                have : m.nextChain = c2 := by
                  injection hcont2
                omega
              · rw [if_neg hji] at hrj
                rw [inv.reqFresh j (by omega)] at hrj
                exact Option.noConfusion hrj
      · intro c2 e2 hc2 hmem
        obtain ⟨hcm, hclt⟩ := hcM c2 hc2
        cases htr : truthy m.store.refresh with
        | true =>
            have hsched : (startRefreshChain .manual m).sched = m.sched := by
              simp [startRefreshChain, htr]
            rw [hsched] at hmem
            exact stk.noSched c2 e2 hcm hmem
        | false =>
            have hsched : (startRefreshChain .manual m).sched
                = m.sched ++ [(m.nextChain, Err.noRefreshToken)] := by
              simp [startRefreshChain, htr]
            rw [hsched] at hmem
            rcases List.mem_append.mp hmem with hm1 | hm2
            · exact stk.noSched c2 e2 hcm hm1
            · have hpe := List.mem_singleton.mp hm2
              have hceq : c2 = m.nextChain := congrArg Prod.fst hpe
              omega
  | deliverNext =>
      simp only [step] at h
      cases hsc : m.sched with
      | nil => rw [hsc] at h; exact Option.noConfusion h
      | cons p rest =>
          rw [hsc] at h
          obtain ⟨c, e2⟩ := p
          injection h with h
          subst h
          have hna : ∀ og, m.chains c = some ⟨og, .running⟩ → og = .manual := by
            intro og hcog
            cases og with
            | manual => rfl
            | auto =>
                exact absurd (by rw [hsc]; exact List.mem_cons_self _ _)
                  (stk.noSched c e2 hcog)
          exact stuck_settle_id _ c _ stk hna rfl rfl
            (fun p hp => by rw [hsc]; exact List.mem_cons_of_mem _ hp) rfl

theorem stuck_run {m : Machine} (inv : Inv m) (stk : Stuck m) (evs : List Ev) :
    Stuck (run m evs) := by
  induction evs generalizing m with
  | nil => exact stk
  | cons e t ih =>
      rw [run_cons]
      cases hs : step e m with
      | none =>
          simp only [hs, Option.getD_none]
          exact ih inv stk
      | some m2 =>
          simp only [hs, Option.getD_some]
          exact ih (inv_step hs inv) (stuck_step hs inv stk)

/-- The concrete failing run is stuck: the deadlocked configuration
holds after `deadTrace`. -/
theorem stuck_mDead : Stuck mDead := by
  have inv : Inv mDead := inv_run storeRT deadTrace
  have hnr : mDead.nextReq = 3 := by decide
  have hnc : mDead.nextChain = 1 := by decide
  refine ⟨by decide,
    ⟨⟨⟨some "Bearer at1", true⟩, .api, .pending⟩, by decide, rfl, rfl⟩, ?_, ?_⟩
  · intro c hc j r hrj hcont
    rcases Nat.lt_or_ge c 1 with hc1 | hc1
    · interval_cases c
      rcases Nat.lt_or_ge j 3 with hj3 | hj3
      · interval_cases j
        · have h0 : mDead.reqs 0
              = some ⟨⟨some "Bearer at1", true⟩, .api, .pending⟩ := by decide
          rw [h0] at hrj
          injection hrj with hrj
          subst hrj
          decide
        · have h1 : mDead.reqs 1
              = some ⟨⟨some "Bearer at1", true⟩, .api, .pending⟩ := by decide
          rw [h1] at hrj
          injection hrj with hrj
          subst hrj
          decide
        · have h2 : mDead.reqs 2
              = some ⟨⟨some "Bearer at1", true⟩, .refreshPost 0, .pending⟩ := by decide
          rw [h2] at hrj
          injection hrj with hrj
          subst hrj
          decide
      · rw [inv.reqFresh j (by omega)] at hrj
        exact Option.noConfusion hrj
    · rw [inv.chFresh c (by omega)] at hc
      exact Option.noConfusion hc
  · intro c e hc hmem
    have hsch : mDead.sched = [] := rfl
    rw [hsch] at hmem
    simp at hmem

/-- C1: in the failing run `deadTrace` — two concurrent calls rejected
with 401 while no refresh is in progress, after which the refresh
exchange itself is rejected with 401 — exactly one `refreshToken`
invocation and exactly one network exchange to `/auth/refresh` are
performed (the `isRefreshing` flag admits at most one outstanding
refresh), but the calls never settle: `isRefreshing` stays raised, all
three requests (the two calls and the refresh `POST` itself) stay in the
subscriber list, nobody is ever notified, and call 0 remains pending
after every possible continuation of the run.  This refutes the
"all N calls eventually settle" half of the claim. -/
theorem rowt_c1_single_flight_and_deadlock :
    mDead.refreshCalls = 1 ∧ mDead.refreshPosts = 1 ∧ mDead.isRefreshing = true
    ∧ mDead.subscribers = [0, 1, 2] ∧ mDead.notifyLog = []
    ∧ ∀ evs : List Ev, ∃ r, (run mDead evs).reqs 0 = some r ∧ r.status = .pending := by
  refine ⟨by decide, by decide, by decide, by decide, rfl, ?_⟩
  intro evs
  have stk : Stuck (run mDead evs) :=
    stuck_run (show Inv mDead from inv_run storeRT deadTrace) stuck_mDead evs
  obtain ⟨r, hr, _, hs⟩ := stk.call0
  exact ⟨r, hr, hs⟩

/-- C2: whenever a transition settles the in-flight refresh, every
subscriber registered at that moment is notified exactly once — the
notification log gains exactly one entry per registered request, in
registration order, all with the same outcome — and the subscriber list
is emptied; moreover no request number ever appears twice in the
notification log of any reachable state, so no Pending Caller is ever
notified twice. -/
theorem rowt_c2_notify_exactly_once_in_order (st : Store) (evs : List Ev) (e : Ev) :
    ((run (initM st) (evs ++ [e])).notifyLog.map Prod.fst).Nodup ∧
    ((run (initM st) (evs ++ [e])).notifyLog = (run (initM st) evs).notifyLog ∨
      ∃ out, (run (initM st) (evs ++ [e])).notifyLog
          = (run (initM st) evs).notifyLog
            ++ (run (initM st) evs).subscribers.map (fun i => (i, out))
        ∧ (run (initM st) (evs ++ [e])).subscribers = []) := by
  constructor
  · have hinv := inv_run st (evs ++ [e])
    have hn := hinv.nodup
    unfold SubsLog at hn
    exact hn.of_append_right
  · rw [run_append]
    exact step_log_delta e (run (initM st) evs)

/-- C3: a 401 response for a call whose `config._retry` flag is already
set settles the call with the auth failure and changes nothing else: no
new refresh is started (`refreshCalls`, `refreshPosts`, `isRefreshing`,
the chains), no Pending Caller is registered (`subscribers`), and no
notification is issued. -/
theorem rowt_c3_at_most_one_retry (st : Store) (evs : List Ev) (i : Nat) (auth : Option String)
    (hr : (run (initM st) evs).reqs i = some ⟨⟨auth, true⟩, .api, .inflight⟩) :
    ∃ m2, step (.resp401 i) (run (initM st) evs) = some m2
      ∧ m2.reqs i = some ⟨⟨auth, true⟩, .api, .settledErr .status401⟩
      ∧ (∀ j, j ≠ i → m2.reqs j = (run (initM st) evs).reqs j)
      ∧ m2.subscribers = (run (initM st) evs).subscribers
      ∧ m2.isRefreshing = (run (initM st) evs).isRefreshing
      ∧ m2.refreshCalls = (run (initM st) evs).refreshCalls
      ∧ m2.refreshPosts = (run (initM st) evs).refreshPosts
      ∧ m2.notifyLog = (run (initM st) evs).notifyLog
      ∧ m2.store = (run (initM st) evs).store
      ∧ m2.chains = (run (initM st) evs).chains
      ∧ m2.sched = (run (initM st) evs).sched := by
  refine ⟨setReq (run (initM st) evs) i ⟨⟨auth, true⟩, .api, .settledErr .status401⟩,
    ?_, ?_, ?_, rfl, rfl, rfl, rfl, rfl, rfl, rfl, rfl⟩
  · simp [step, hr, rejectReq]
  · simp [setReq, updFn]
  · intro j hj
    simp [setReq, updFn, hj]

theorem rowt_c3_witness :
    ∃ m2, step (.resp401 0) mRetry = some m2
      ∧ m2.reqs 0 = some ⟨⟨some "Bearer a2", true⟩, .api, .settledErr .status401⟩
      ∧ (∀ j, j ≠ 0 → m2.reqs j = mRetry.reqs j)
      ∧ m2.subscribers = mRetry.subscribers
      ∧ m2.isRefreshing = mRetry.isRefreshing
      ∧ m2.refreshCalls = mRetry.refreshCalls
      ∧ m2.refreshPosts = mRetry.refreshPosts
      ∧ m2.notifyLog = mRetry.notifyLog
      ∧ m2.store = mRetry.store
      ∧ m2.chains = mRetry.chains
      ∧ m2.sched = mRetry.sched :=
  rowt_c3_at_most_one_retry storeRT retryTrace 0 (some "Bearer a2") (by decide)

/-- C4: in the failing run `deadTrace` the refresh exchange fails (its
`POST` is rejected with 401), yet the Token Store is NOT cleared, no
Pending Caller is notified, the pending list is NOT emptied and
`isRefreshing` is NOT reset — the refresh `POST` itself is parked as a
pending caller instead.  By contrast, a non-401 refresh failure and the
missing-refresh-token failure do perform the documented cleanup: store
cleared, every pending caller notified with the error, list emptied,
flag reset. -/
theorem rowt_c4_refresh_failure_cleanup_bug :
    (mDead.store = storeRT ∧ mDead.isRefreshing = true ∧ mDead.subscribers ≠ []
      ∧ mDead.notifyLog = []
      ∧ mDead.reqs 2 = some ⟨⟨some "Bearer at1", true⟩, .refreshPost 0, .pending⟩) ∧
    (mRefreshFail.store = ⟨none, none⟩ ∧ mRefreshFail.isRefreshing = false
      ∧ mRefreshFail.subscribers = []
      ∧ mRefreshFail.notifyLog = [(0, .error .serverError)]) ∧
    (mNoToken.store = ⟨none, none⟩ ∧ mNoToken.isRefreshing = false
      ∧ mNoToken.subscribers = []
      ∧ mNoToken.notifyLog = [(0, .error .noRefreshToken)]) :=
  ⟨⟨rfl, rfl, by decide, rfl, by decide⟩,
   ⟨rfl, rfl, rfl, rfl⟩,
   ⟨rfl, rfl, rfl, rfl⟩⟩

/-- C5: a success response for an in-flight call settles the call with
that payload unchanged, and a non-401 error response settles it with the
original error; in both cases only that request entry changes — the
store, the flag, the subscriber list, the log and the refresh counters
are untouched, so no refresh is triggered and no Pending Caller is
registered. -/
theorem rowt_c5_non401_passthrough (st : Store) (evs : List Ev) (i : Nat) (cfg : ReqConfig)
    (hr : (run (initM st) evs).reqs i = some ⟨cfg, .api, .inflight⟩) :
    (∀ payload, step (.respOkApi i payload) (run (initM st) evs)
        = some (setReq (run (initM st) evs) i ⟨cfg, .api, .settledOk payload⟩)) ∧
    step (.respErr i) (run (initM st) evs)
        = some (setReq (run (initM st) evs) i ⟨cfg, .api, .settledErr .serverError⟩) ∧
    (∀ rNew j, j ≠ i →
        (setReq (run (initM st) evs) i rNew).reqs j = (run (initM st) evs).reqs j) ∧
    (∀ rNew, (setReq (run (initM st) evs) i rNew).store = (run (initM st) evs).store
      ∧ (setReq (run (initM st) evs) i rNew).isRefreshing = (run (initM st) evs).isRefreshing
      ∧ (setReq (run (initM st) evs) i rNew).subscribers = (run (initM st) evs).subscribers
      ∧ (setReq (run (initM st) evs) i rNew).notifyLog = (run (initM st) evs).notifyLog
      ∧ (setReq (run (initM st) evs) i rNew).refreshCalls = (run (initM st) evs).refreshCalls
      ∧ (setReq (run (initM st) evs) i rNew).refreshPosts
          = (run (initM st) evs).refreshPosts) := by
  refine ⟨?_, ?_, ?_, fun rNew => ⟨rfl, rfl, rfl, rfl, rfl, rfl⟩⟩
  · intro payload
    simp [step, hr]
  · simp [step, hr, rejectReq]
  · intro rNew j hj
    simp [setReq, updFn, hj]

theorem rowt_c5_witness :
    step (.respOkApi 0 "payload") mOneSend
      = some (setReq mOneSend 0 ⟨⟨some "Bearer at1", false⟩, .api, .settledOk "payload"⟩)
    ∧ step (.respErr 0) mOneSend
      = some (setReq mOneSend 0 ⟨⟨some "Bearer at1", false⟩, .api, .settledErr .serverError⟩) :=
  ⟨(rowt_c5_non401_passthrough storeRT [.send] 0 ⟨some "Bearer at1", false⟩ (by decide)).1
      "payload",
   (rowt_c5_non401_passthrough storeRT [.send] 0 ⟨some "Bearer at1", false⟩ (by decide)).2.1⟩

/-- C6: the request signer reads the access token from the store; if it
is truthy the outgoing config carries `Authorization: Bearer <token>`,
otherwise the config is returned untouched (a fresh call goes out with no
Authorization header); and sending a call changes nothing in the
coordinator state beyond allocating the in-flight request signed from the
current store. -/
theorem rowt_c6_request_signer :
    (∀ (st : Store) (cfg : ReqConfig), truthy st.access = true →
        applyRequestInterceptor st cfg
          = { cfg with authorization := some ("Bearer " ++ st.access.getD "") }) ∧
    (∀ (st : Store) (cfg : ReqConfig), truthy st.access = false →
        applyRequestInterceptor st cfg = cfg) ∧
    (∀ (st : Store) (evs : List Ev),
        step .send (run (initM st) evs)
          = some { run (initM st) evs with
                    reqs := updFn (run (initM st) evs).reqs (run (initM st) evs).nextReq
                      (some ⟨applyRequestInterceptor (run (initM st) evs).store ⟨none, false⟩,
                            .api, .inflight⟩),
                    nextReq := (run (initM st) evs).nextReq + 1 }) := by
  refine ⟨?_, ?_, fun st evs => rfl⟩
  · intro st cfg ht
    cases hac : st.access with
    | none => rw [hac] at ht; exact Bool.noConfusion ht
    | some t =>
        rw [hac] at ht
        have htne : ¬(t = "") := by simpa [truthy] using ht
        simp [applyRequestInterceptor, hac, htne]
  · intro st cfg ht
    cases hac : st.access with
    | none => simp [applyRequestInterceptor, hac]
    | some t =>
        rw [hac] at ht
        have hte : t = "" := by simpa [truthy] using ht
        simp [applyRequestInterceptor, hac, hte]

theorem rowt_c6_witness :
    applyRequestInterceptor storeRT ⟨none, false⟩ = ⟨some "Bearer at1", false⟩
    ∧ applyRequestInterceptor ⟨none, none⟩ ⟨none, false⟩ = ⟨none, false⟩ :=
  ⟨rowt_c6_request_signer.1 storeRT ⟨none, false⟩ (by decide),
   rowt_c6_request_signer.2.1 ⟨none, none⟩ ⟨none, false⟩ (by decide)⟩

/-- C7: `logout` always clears both token slots and never throws — the
`return` inside its `finally` block overrides any exception from the
remote invalidation call, so the completion is the `return` for every
store (including an already-empty one) and every remote outcome. -/
theorem rowt_c7_logout_unconditional (st : Store) (remote : Except Err Unit) :
    logout st remote = (⟨none, none⟩, .ret "Logout successful")
    ∧ ∀ e, (logout st remote).2 ≠ .thrown e := by
  refine ⟨?_, ?_⟩
  · cases remote <;> rfl
  · intro e
    have h1 : (logout st remote).2 = .ret "Logout successful" := by cases remote <;> rfl
    rw [h1]
    exact fun hcon => Completion.noConfusion hcon

/-- C8 counterexample: `getUserUsage` and `getUserTier` take a required
`userId` yet perform no validation — called with the empty identifier
they build and send the network request instead of failing fast. -/
theorem rowt_c8_counterexample :
    getUserUsage "" = .ok ("/users/usage", "") ∧ getUserTier "" = .ok ("/users/tier", "") :=
  ⟨rfl, rfl⟩

/-- C8 amended: `getLinksByProjectId`, `getProjectById`, `getAnalytics`,
`regenerateApiKey` and `getAnalyticsBreakdown` fail fast with a
validation error on an empty identifier, before any network call;
`getUserUsage` and `getUserTier` perform no identifier validation and
always send the request. -/
theorem rowt_c8_amended :
    (∀ inc, getLinksByProjectId "" inc = .error "Missing projectId") ∧
    getProjectById "" = .error "Missing projectId" ∧
    getAnalytics "" = .error "Missing projectId" ∧
    regenerateApiKey "" = .error "Missing projectId" ∧
    (∀ envTZ r, r.projectId = "" → getAnalyticsBreakdown envTZ r = .error "Missing projectId") ∧
    (∀ userId, ∃ p, getUserUsage userId = .ok p) ∧
    (∀ userId, ∃ p, getUserTier userId = .ok p) := by
  refine ⟨fun inc => rfl, rfl, rfl, rfl, ?_, fun u => ⟨_, rfl⟩, fun u => ⟨_, rfl⟩⟩
  intro envTZ r hp
  simp [getAnalyticsBreakdown, hp]

theorem rowt_c8_witness :
    getAnalyticsBreakdown "UTC" ⟨"", "country", some 1, some 2, none, none, none⟩
      = .error "Missing projectId" :=
  rowt_c8_amended.2.2.2.2.1 "UTC" ⟨"", "country", some 1, some 2, none, none, none⟩ rfl

/-- C9: a manual refresh whose exchange settles normally leaves
`isRefreshing`, the subscriber list and the notification log untouched;
but in the failing run — the manual refresh exchange itself rejected
with 401 — the response interceptor raises `isRefreshing`, starts a
second `refreshToken` invocation with a second network exchange, and
registers the manual exchange itself as a Pending Caller.  This refutes
the "never interacts with the queue or the flag" claim. -/
theorem rowt_c9_manual_refresh_interference :
    (mManualOk.isRefreshing = false ∧ mManualOk.subscribers = []
      ∧ mManualOk.notifyLog = [] ∧ mManualOk.store = ⟨some "a2", some "r2"⟩
      ∧ mManualOk.chains 0 = some ⟨.manual, .doneSuccess "a2"⟩) ∧
    (mManualBug.isRefreshing = true ∧ mManualBug.subscribers = [0]
      ∧ mManualBug.reqs 0 = some ⟨⟨some "Bearer at1", true⟩, .refreshPost 0, .pending⟩
      ∧ mManualBug.chains 0 = some ⟨.manual, .running⟩
      ∧ mManualBug.chains 1 = some ⟨.auto, .running⟩
      ∧ mManualBug.refreshCalls = 2 ∧ mManualBug.refreshPosts = 2) :=
  ⟨⟨rfl, rfl, rfl, rfl, by decide⟩,
   ⟨rfl, rfl, by decide, by decide, by decide, rfl, rfl⟩⟩

/-- C10: for every breakdown request that passes validation, the payload
sent to `/analytics/breakdown` carries `limit = 50` whenever the
requested limit is absent or `0`, and `offset = 0` whenever the
requested offset is absent or `0` — a caller-supplied limit of `0` is
replaced by `50`, not transmitted. -/
theorem rowt_c10_breakdown_defaults (envTZ : String) (r : AnalyticsBreakdownRequest)
    (p : BreakdownPayload) (h : getAnalyticsBreakdown envTZ r = .ok p) :
    ((r.limit = none ∨ r.limit = some 0) → p.limit = 50) ∧
    ((r.offset = none ∨ r.offset = some 0) → p.offset = 0) := by
  unfold getAnalyticsBreakdown at h
  by_cases h1 : r.projectId = ""
  · rw [if_pos h1] at h
    exact Except.noConfusion h
  · rw [if_neg h1] at h
    by_cases h2 : r.dimension = ""
    · rw [if_pos h2] at h
      exact Except.noConfusion h
    · rw [if_neg h2] at h
      cases hs : r.startDate with
      | none =>
          rw [hs] at h
          cases he : r.endDate <;> rw [he] at h <;> exact Except.noConfusion h
      | some sd =>
          cases he : r.endDate with
          | none =>
              rw [hs, he] at h
              exact Except.noConfusion h
          | some ed =>
              rw [hs, he] at h
              injection h with h
              subst h
              constructor
              · intro hl
                show jsOrInt r.limit 50 = 50
                rcases hl with hl | hl <;> rw [hl] <;> simp [jsOrInt]
              · intro ho
                show jsOrInt r.offset 0 = 0
                rcases ho with ho | ho <;> rw [ho] <;> simp [jsOrInt]

theorem rowt_c10_witness :
    getAnalyticsBreakdown "UTC" breakdownReq0
        = .ok ⟨"p1", "country", 1000, 2000, "UTC", 50, 0⟩
    ∧ (⟨"p1", "country", 1000, 2000, "UTC", 50, 0⟩ : BreakdownPayload).limit = 50
    ∧ (⟨"p1", "country", 1000, 2000, "UTC", 50, 0⟩ : BreakdownPayload).offset = 0 :=
  ⟨rfl,
   (rowt_c10_breakdown_defaults "UTC" breakdownReq0
      ⟨"p1", "country", 1000, 2000, "UTC", 50, 0⟩ rfl).1 (Or.inr rfl),
   (rowt_c10_breakdown_defaults "UTC" breakdownReq0
      ⟨"p1", "country", 1000, 2000, "UTC", 50, 0⟩ rfl).2 (Or.inr rfl)⟩

end RowtConsole
